import Mathlib

/-!
Shallow embedding of the rodis server (src/app/server.go): the RESP
protocol codec (DecodeRESP and its helpers), the key-value storage engine
with lazy TTL expiration (Storage, ValueWithExpiry), and one iteration of
the per-connection request loop (handleConnection, lines 76-110).

Bytes are modelled as natural numbers (the byte values); a Go byte stream
is a `List Nat`.  A `bufio.Reader` is modelled by threading the remaining
stream through every decoding function, which therefore returns
`Except DecodeErr A × List Nat`: the result (or the Go `error`) together
with the stream as the reader leaves it.  Go runtime panics (out-of-range
slice indexes, `bytes[:n]` with negative `n`, `make` with negative length)
are modelled by the distinguished error `DecodeErr.panics` / by `none` in
the request handler.  `time.Time` is modelled as an `Int` of nanoseconds
measured from Go's zero `time.Time`, so `0` is exactly the zero time;
`time.Duration` is an `Int` of nanoseconds, and the one place the source
multiplies durations (the px branch of the dispatcher) uses `wrap64`, the
wrapping 64-bit product Go computes.
-/

namespace Rodis

/-- The bytes of an ASCII string literal, used to transcribe the string
literals of server.go. -/
def bytesOfString (s : String) : List Nat :=
  s.data.map Char.toNat

/-- Errors a decoding function can return; the constructors stand for the
distinct Go error values: `truncated` for io.EOF / io.ErrUnexpectedEOF
(from ReadByte, ReadBytes or io.ReadFull hitting end of stream),
`parseError` for the error of strconv.Atoi (including its out-of-range
error), `invalidType b` for the fmt.Errorf "Invalid RESP data type byte"
of DecodeRESP, and `panics` for a Go runtime panic (negative slice index
or negative make length).  `depthExceeded` is a modelling artifact: it is
returned only when the fuel bounding array-nesting depth runs out, which
never happens when the fuel exceeds the nesting depth of the input. -/
inductive DecodeErr where
  | truncated
  | parseError
  | invalidType (b : Nat)
  | panics
  | depthExceeded
deriving DecidableEq, Repr

/-- strconv.Atoi accepts values of Go's 64-bit int; this is its maximum. -/
def maxInt64 : Nat := 9223372036854775807

/-- Digit accumulation of strconv.Atoi: consumes decimal digits, failing on
any non-digit byte. -/
def parseNatAux : List Nat → Nat → Option Nat
  | [], acc => some acc
  | c :: rest, acc =>
      if 48 ≤ c ∧ c ≤ 57 then parseNatAux rest (acc * 10 + (c - 48)) else none

/-- The digit part of strconv.Atoi: at least one digit required. -/
def parseNatDigits : List Nat → Option Nat
  | [] => none
  | cs => parseNatAux cs 0

/-- Model of strconv.Atoi(string(bs)) for Go's 64-bit int: an optional
leading sign, then decimal digits; empty digit part or any non-digit is a
parse error, and a value outside the int64 range is strconv's range error
(also a non-nil Go error, so both are `parseError`). -/
def Atoi (cs : List Nat) : Except DecodeErr Int :=
  match cs with
  | [] => .error .parseError
  | c :: rest =>
      let p : Bool × List Nat :=
        if c = 45 then (true, rest) else if c = 43 then (false, rest) else (false, cs)
      match parseNatDigits p.2 with
      | none => .error .parseError
      | some n =>
          if p.1 then
            if n ≤ maxInt64 + 1 then .ok (-(n : Int)) else .error .parseError
          else
            if n ≤ maxInt64 then .ok (n : Int) else .error .parseError

/-- The decimal digit bytes of a natural number, most significant first:
the bytes fmt.Sprintf "%d" produces for a non-negative value. -/
def natDigits (n : Nat) : List Nat :=
  if h : n < 10 then [n + 48] else natDigits (n / 10) ++ [n % 10 + 48]
decreasing_by
  exact Nat.div_lt_self (by omega) (by norm_num)

/-- The value of a big-endian decimal digit byte list (semantic helper used
to state what Atoi computes on an all-digit input). -/
def digitsVal (cs : List Nat) : Nat :=
  cs.foldl (fun a c => a * 10 + (c - 48)) 0

/-- The Type constants of server.go (SimpleString '+', BulkString '$',
Array '*') together with the Value struct: a decoded Value is exactly one
of the three variants, the other struct fields being nil. -/
inductive Value where
  | simpleString (bytes : List Nat)
  | bulkString (bytes : List Nat)
  | array (elems : List Value)

/-- Go method Value.String(): the bytes for the string variants, ""
otherwise. -/
def Value.str : Value → List Nat
  | .simpleString bs => bs
  | .bulkString bs => bs
  | .array _ => []

/-- Go method Value.Array(): the elements for the Array variant, the empty
slice otherwise. -/
def Value.arr : Value → List Value
  | .array vs => vs
  | _ => []

/-- bufio.Reader.ReadBytes('\n'): the bytes up to and including the first
LF; end of stream before an LF is io.EOF (the partially read data is
discarded by the caller readUntilCRLF). -/
def readBytesLF : List Nat → Except DecodeErr (List Nat) × List Nat
  | [] => (.error .truncated, [])
  | c :: rest =>
      if c = 10 then (.ok [c], rest)
      else
        match readBytesLF rest with
        | (.error e, s1) => (.error e, s1)
        | (.ok bs, s1) => (.ok (c :: bs), s1)

/-- readUntilCRLF of server.go: ReadBytes('\n') then bytes[:len(bytes)-2].
When the line is the single byte '\n', the slice index len-2 = -1 is
negative and Go panics. -/
def readUntilCRLF (s : List Nat) : Except DecodeErr (List Nat) × List Nat :=
  match readBytesLF s with
  | (.error e, s1) => (.error e, s1)
  | (.ok bs, s1) =>
      if bs.length < 2 then (.error .panics, s1)
      else (.ok (bs.take (bs.length - 2)), s1)

/-- io.ReadFull into a buffer of n bytes: the first n bytes of the stream,
or an error (io.EOF / io.ErrUnexpectedEOF) with the whole stream consumed
when fewer than n bytes remain. -/
def readFull (n : Nat) (s : List Nat) : Except DecodeErr (List Nat) × List Nat :=
  if n ≤ s.length then (.ok (s.take n), s.drop n) else (.error .truncated, [])

/-- decodeSimpleString of server.go. -/
def decodeSimpleString (s : List Nat) : Except DecodeErr Value × List Nat :=
  match readUntilCRLF s with
  | (.error e, s1) => (.error e, s1)
  | (.ok bs, s1) => (.ok (.simpleString bs), s1)

/-- decodeBulkString of server.go: read the length line, Atoi it, read
count+2 bytes, return bytes[:count].  make([]byte, count+2) panics when
count+2 is negative, and bytes[:count] panics when count is negative, so a
negative parsed length never yields a value. -/
def decodeBulkString (s : List Nat) : Except DecodeErr Value × List Nat :=
  match readUntilCRLF s with
  | (.error e, s1) => (.error e, s1)
  | (.ok countBytes, s1) =>
      match Atoi countBytes with
      | .error e => (.error e, s1)
      | .ok count =>
          if count + 2 < 0 then (.error .panics, s1)
          else
            match readFull (count + 2).toNat s1 with
            | (.error e, s2) => (.error e, s2)
            | (.ok bytes, s2) =>
                if count < 0 then (.error .panics, s2)
                else (.ok (.bulkString (bytes.take count.toNat)), s2)

mutual

/-- DecodeRESP of server.go: one type-tag byte, then the variant's decoder.
The '*' branch is decodeArray of server.go inlined: read the count line,
Atoi it, then decode that many elements (a non-positive count runs the
loop zero times).  `fuel` bounds only the array-nesting depth, which Go
leaves unbounded: every run with fuel greater than the input's nesting
depth computes exactly what the Go code computes. -/
def DecodeRESP : Nat → List Nat → Except DecodeErr Value × List Nat
  | 0, s => (.error .depthExceeded, s)
  | fuel + 1, s =>
      match s with
      | [] => (.error .truncated, [])
      | b :: rest =>
          if b = 43 then decodeSimpleString rest
          else if b = 36 then decodeBulkString rest
          else if b = 42 then
            match readUntilCRLF rest with
            | (.error e, s1) => (.error e, s1)
            | (.ok countBytes, s1) =>
                match Atoi countBytes with
                | .error e => (.error e, s1)
                | .ok count =>
                    match decodeElems fuel count.toNat s1 with
                    | (.error e, s2) => (.error e, s2)
                    | (.ok vs, s2) => (.ok (.array vs), s2)
          else (.error (.invalidType b), rest)
termination_by fuel s => (fuel, 0)

/-- The element loop of decodeArray: decode `count` values in order,
aborting on the first error. -/
def decodeElems : Nat → Nat → List Nat → Except DecodeErr (List Value) × List Nat
  | _, 0, s => (.ok [], s)
  | fuel, count + 1, s =>
      match DecodeRESP fuel s with
      | (.error e, s1) => (.error e, s1)
      | (.ok v, s1) =>
          match decodeElems fuel count s1 with
          | (.error e, s2) => (.error e, s2)
          | (.ok vs, s2) => (.ok (v :: vs), s2)
termination_by fuel count s => (fuel, count + 1)

end

mutual

/-- Modelled from the spec: Encode(Value) → bytes is required by §4.1 and
§8 of the spec but is absent from the source (replies are built directly
with fmt.Sprintf).  Per the spec's rules: prefix with the type tag,
serialize the byte length (bulk string) or element count (array) in
decimal, append CRLF terminators; array elements are encoded in order
after the count line. -/
def Encode : Value → List Nat
  | .simpleString bs => 43 :: (bs ++ [13, 10])
  | .bulkString bs => 36 :: (natDigits bs.length ++ [13, 10] ++ bs ++ [13, 10])
  | .array vs => 42 :: (natDigits vs.length ++ [13, 10] ++ EncodeList vs)

/-- Modelled from the spec: the concatenation of the encodings of an
array's elements, in order. -/
def EncodeList : List Value → List Nat
  | [] => []
  | v :: vs => Encode v ++ EncodeList vs

end

mutual

/-- Constructibility of a protocol value in the Go program: every byte
slice has a length representable in Go's 64-bit int (true of every Go
slice), and a SimpleString's content contains no LF byte — exactly the
values the decoder itself can produce, since decodeSimpleString reads up
to the first LF of the stream. -/
def Constructible : Value → Bool
  | .simpleString bs => bs.all (fun c => c ≠ 10)
  | .bulkString bs => decide (bs.length ≤ maxInt64)
  | .array vs => decide (vs.length ≤ maxInt64) && ConstructibleList vs

/-- Constructibility of every element of an array. -/
def ConstructibleList : List Value → Bool
  | [] => true
  | v :: vs => Constructible v && ConstructibleList vs

end

mutual

/-- Array-nesting depth of a value plus one: any fuel at least this large
makes DecodeRESP compute exactly what the (unbounded) Go recursion
computes on this value's encoding. -/
def neededFuel : Value → Nat
  | .simpleString _ => 1
  | .bulkString _ => 1
  | .array vs => neededFuelList vs + 1

/-- Maximum neededFuel over a list of values. -/
def neededFuelList : List Value → Nat
  | [] => 0
  | v :: vs => max (neededFuel v) (neededFuelList vs)

end

/-! ## The storage engine (server.go lines 30-61, 225-235) -/

/-- The ValueWithExpiry struct: a stored value and its expiry instant.
Instants are Int nanoseconds measured from Go's zero time.Time, so
`expiresAt = 0` is exactly the zero time (set by a plain Set, meaning no
expiry), and an instant in the far past — as time.Now().Add of a negative
or wrapped duration produces — stays negative or small but nonzero,
never the sentinel. -/
structure ValueWithExpiry where
  value : List Nat
  expiresAt : Int
deriving DecidableEq, Repr

/-- ValueWithExpiry.IsExpired, at current time `now`: IsZero (the zero
time) means no expiry, otherwise expiresAt.Before(now), i.e. strictly
before. -/
def ValueWithExpiry.IsExpired (v : ValueWithExpiry) (now : Int) : Bool :=
  if v.expiresAt = 0 then false else v.expiresAt < now

/-- The Storage struct's map, modelled as a function from key to optional
entry (Go map lookup with its ok flag). -/
def Storage := List Nat → Option ValueWithExpiry

/-- NewStorage: the empty map. -/
def NewStorage : Storage := fun _ => none

/-- Storage.Set: unconditionally store the value with the zero expiry
time. -/
def Storage.Set (s : Storage) (key value : List Nat) : Storage :=
  fun k => if k = key then some ⟨value, 0⟩ else s k

/-- Storage.SetWithExpiry: store the value with expiresAt =
time.Now().Add(expiry); `now` is the call's current time and `expiry`
the time.Duration, both in nanoseconds. -/
def Storage.SetWithExpiry (s : Storage) (key value : List Nat) (now : Int)
    (expiry : Int) : Storage :=
  fun k => if k = key then some ⟨value, now + expiry⟩ else s k

/-- Storage.Get at current time `now`: absent → not found; present and
expired → delete the entry and report not found; otherwise the value.
Returns the (value, ok) pair together with the table after the call. -/
def Storage.Get (s : Storage) (key : List Nat) (now : Int) :
    (List Nat × Bool) × Storage :=
  match s key with
  | none => (([], false), s)
  | some vwe =>
      if vwe.IsExpired now then
        (([], false), fun k => if k = key then none else s k)
      else ((vwe.value, true), s)

/-! ## One iteration of the request loop (handleConnection, lines 76-110) -/

/-- Reply built by fmt.Sprintf "$%d\r\n%s\r\n" (echo and successful get). -/
def bulkReply (msg : List Nat) : List Nat :=
  36 :: (natDigits msg.length ++ [13, 10] ++ msg ++ [13, 10])

/-- Go's wrapping 64-bit signed arithmetic: reduce an integer into the
int64 range, the interval from -2^63 up to but excluding 2^63. -/
def wrap64 (x : Int) : Int :=
  (x + 2 ^ 63) % 2 ^ 64 - 2 ^ 63

/-- One iteration of handleConnection's loop after a successful decode
(server.go lines 76-110): dispatch on the command name and produce the
reply bytes written to the connection together with the storage after the
call.  `none` models a Go runtime panic from indexing past the end of a
slice: value.Array()[0] on a non-array or empty array, args[0]/args[1] on
echo, set or get with too few arguments, and args[3] in both set option
branches when only three arguments are present.  `now` is the current
time in nanoseconds; the px millisecond count is converted to a
time.Duration by time.Duration(expiry) * time.Millisecond, a wrapping
int64 product of the parsed count with 1000000 ns. -/
def handleRequest (v : Value) (s : Storage) (now : Int) :
    Option (List Nat × Storage) :=
  match v.arr with
  | [] => none
  | cmd :: args =>
      let command := cmd.str
      if command = bytesOfString "ping" then
        some (bytesOfString "+PONG\r\n", s)
      else if command = bytesOfString "echo" then
        match args with
        | [] => none
        | a0 :: _ => some (bulkReply a0.str, s)
      else if command = bytesOfString "set" then
        match args with
        | a0 :: a1 :: a2 :: rest3 =>
            if a2.str = bytesOfString "px" then
              match rest3 with
              | [] => none
              | a3 :: _ =>
                  match Atoi a3.str with
                  | .error _ =>
                      some (bytesOfString "-ERR invalid PX value: " ++ a3.str
                        ++ [13, 10], s)
                  | .ok expiry =>
                      some (bytesOfString "+OK\r\n",
                        s.SetWithExpiry a0.str a1.str now (wrap64 (expiry * 1000000)))
            else
              match rest3 with
              | [] => none
              | a3 :: _ =>
                  some (bytesOfString "-ERR invalid option for set: " ++ a3.str
                    ++ [13, 10], s)
        | [a0, a1] => some (bytesOfString "+OK\r\n", s.Set a0.str a1.str)
        | _ => none
      else if command = bytesOfString "get" then
        match args with
        | [] => none
        | a0 :: _ =>
            match s.Get a0.str now with
            | ((value, found), s1) =>
                if found then some (bulkReply value, s1)
                else some (bytesOfString "$-1\r\n", s1)
      else
        some (bytesOfString "-ERR unknown command " ++ [39] ++ command ++ [39, 13, 10], s)

/-! ## Lemmas about decimal digits and Atoi -/

theorem natDigits_ne_nil (n : Nat) : natDigits n ≠ [] := by
  rw [natDigits]
  split
  · simp
  · simp

theorem natDigits_all_digits (n : Nat) : ∀ c ∈ natDigits n, 48 ≤ c ∧ c ≤ 57 := by
  induction n using Nat.strong_induction_on with
  | _ n ih =>
      rw [natDigits]
      split
      · intro c hc
        simp at hc
        omega
      · intro c hc
        rename_i hn
        simp at hc
        rcases hc with hc | hc
        · exact ih (n / 10) (Nat.div_lt_self (by omega) (by norm_num)) c hc
        · omega

theorem natDigits_foldl (n : Nat) : ∀ acc,
    (natDigits n).foldl (fun a c => a * 10 + (c - 48)) acc =
      acc * 10 ^ (natDigits n).length + n := by
  induction n using Nat.strong_induction_on with
  | _ n ih =>
      intro acc
      rw [natDigits]
      split
      · simp
      · rename_i hn
        rw [List.foldl_append]
        rw [ih (n / 10) (Nat.div_lt_self (by omega) (by norm_num))]
        simp [List.length_append, pow_succ]
        rw [← Nat.mul_assoc]
        generalize acc * 10 ^ (natDigits (n / 10)).length = A
        omega

theorem digitsVal_natDigits (n : Nat) : digitsVal (natDigits n) = n := by
  unfold digitsVal
  rw [natDigits_foldl]
  simp

theorem parseNatAux_digits (cs : List Nat) (acc : Nat)
    (h : ∀ c ∈ cs, 48 ≤ c ∧ c ≤ 57) :
    parseNatAux cs acc = some (cs.foldl (fun a c => a * 10 + (c - 48)) acc) := by
  induction cs generalizing acc with
  | nil => rfl
  | cons c rest ih =>
      have hc := h c (by simp)
      simp only [parseNatAux, List.foldl_cons, if_pos hc]
      exact ih _ (fun d hd => h d (by simp [hd]))

theorem Atoi_of_digits (cs : List Nat) (hne : cs ≠ [])
    (hdig : ∀ c ∈ cs, 48 ≤ c ∧ c ≤ 57) (hrange : digitsVal cs ≤ maxInt64) :
    Atoi cs = .ok (digitsVal cs) := by
  match cs, hne with
  | c :: rest, _ =>
      have hc := hdig c (by simp)
      have h45 : c ≠ 45 := by omega
      have h43 : c ≠ 43 := by omega
      simp only [Atoi, if_neg h45, if_neg h43]
      have : parseNatDigits (c :: rest) = some (digitsVal (c :: rest)) := by
        simp only [parseNatDigits]
        exact parseNatAux_digits _ _ hdig
      rw [this]
      simp [if_pos hrange, hrange]

theorem Atoi_natDigits (n : Nat) (h : n ≤ maxInt64) :
    Atoi (natDigits n) = .ok n := by
  have := Atoi_of_digits (natDigits n) (natDigits_ne_nil n) (natDigits_all_digits n)
    (by rw [digitsVal_natDigits]; exact h)
  rw [digitsVal_natDigits] at this
  exact this

/-! ## Lemmas about the stream-reading helpers -/

theorem readBytesLF_no_lf (line : List Nat) (rest : List Nat)
    (h : ∀ c ∈ line, c ≠ 10) :
    readBytesLF (line ++ 10 :: rest) = (.ok (line ++ [10]), rest) := by
  induction line with
  | nil => simp [readBytesLF]
  | cons c cs ih =>
      have hc : c ≠ 10 := h c (by simp)
      simp only [List.cons_append, readBytesLF, if_neg hc, List.append_eq]
      rw [ih (fun d hd => h d (by simp [hd]))]

theorem readUntilCRLF_crlf (line : List Nat) (rest : List Nat)
    (h : ∀ c ∈ line, c ≠ 10) :
    readUntilCRLF (line ++ 13 :: 10 :: rest) = (.ok line, rest) := by
  have h13 : ∀ c ∈ line ++ [13], c ≠ 10 := by
    intro c hc
    simp at hc
    rcases hc with hc | hc
    · exact h c hc
    · omega
  have heq : line ++ 13 :: 10 :: rest = (line ++ [13]) ++ 10 :: rest := by
    simp
  rw [heq]
  simp only [readUntilCRLF, readBytesLF_no_lf _ _ h13]
  have h2 : ¬ ((line ++ [13] ++ [10]).length < 2) := by simp
  rw [if_neg h2]
  have htake : (line ++ [13] ++ [10]).take ((line ++ [13] ++ [10]).length - 2) = line := by
    simp
  rw [htake]

theorem readFull_exact (a rest : List Nat) :
    readFull a.length (a ++ rest) = (.ok a, rest) := by
  simp [readFull, List.take_left, List.drop_left]

/-! ## Lemmas about the variant decoders -/

theorem decodeSimpleString_crlf (bs rest : List Nat) (h : ∀ c ∈ bs, c ≠ 10) :
    decodeSimpleString (bs ++ 13 :: 10 :: rest) = (.ok (.simpleString bs), rest) := by
  simp only [decodeSimpleString, readUntilCRLF_crlf bs rest h]

theorem decodeBulkString_digits (n : Nat) (ds tail : List Nat) (hne : ds ≠ [])
    (hdig : ∀ c ∈ ds, 48 ≤ c ∧ c ≤ 57) (hval : digitsVal ds = n)
    (hrange : n ≤ maxInt64) (hlen : n + 2 ≤ tail.length) :
    decodeBulkString (ds ++ 13 :: 10 :: tail) =
      (.ok (.bulkString (tail.take n)), tail.drop (n + 2)) := by
  have hno10 : ∀ c ∈ ds, c ≠ 10 := fun c hc => by have := hdig c hc; omega
  have hatoi : Atoi ds = .ok (n : Int) := by
    have := Atoi_of_digits ds hne hdig (by rw [hval]; exact hrange)
    rw [hval] at this
    exact this
  simp only [decodeBulkString, readUntilCRLF_crlf ds tail hno10, hatoi]
  rw [if_neg (by omega)]
  have htn : ((n : Int) + 2).toNat = n + 2 := by omega
  rw [htn]
  have hrf : readFull (n + 2) tail = (.ok (tail.take (n + 2)), tail.drop (n + 2)) := by
    unfold readFull
    rw [if_pos hlen]
  rw [hrf]
  have htn2 : ((n : Int)).toNat = n := by omega
  simp [show ¬ ((n : Int) < 0) by omega, htn2, List.take_take,
    min_eq_left (show n ≤ n + 2 by omega)]

theorem decodeBulkString_digits_trunc (n : Nat) (ds tail : List Nat) (hne : ds ≠ [])
    (hdig : ∀ c ∈ ds, 48 ≤ c ∧ c ≤ 57) (hval : digitsVal ds = n)
    (hrange : n ≤ maxInt64) (hlen : tail.length < n + 2) :
    decodeBulkString (ds ++ 13 :: 10 :: tail) = (.error .truncated, []) := by
  have hno10 : ∀ c ∈ ds, c ≠ 10 := fun c hc => by have := hdig c hc; omega
  have hatoi : Atoi ds = .ok (n : Int) := by
    have := Atoi_of_digits ds hne hdig (by rw [hval]; exact hrange)
    rw [hval] at this
    exact this
  simp only [decodeBulkString, readUntilCRLF_crlf ds tail hno10, hatoi]
  rw [if_neg (by omega)]
  have htn : ((n : Int) + 2).toNat = n + 2 := by omega
  rw [htn]
  have hrf : readFull (n + 2) tail = (.error .truncated, []) := by
    unfold readFull
    rw [if_neg (by omega)]
  rw [hrf]

theorem decodeBulkString_parse_error (cs tail : List Nat)
    (hno10 : ∀ c ∈ cs, c ≠ 10) (herr : Atoi cs = .error .parseError) :
    decodeBulkString (cs ++ 13 :: 10 :: tail) = (.error .parseError, tail) := by
  simp only [decodeBulkString, readUntilCRLF_crlf cs tail hno10, herr]

/-! ## Round-trip of Decode after Encode -/

theorem natDigits_no_lf (n : Nat) : ∀ c ∈ natDigits n, c ≠ 10 := by
  intro c hc
  have := natDigits_all_digits n c hc
  omega

theorem decodeBulkString_encode (bs rest : List Nat) (h : bs.length ≤ maxInt64) :
    decodeBulkString (natDigits bs.length ++ 13 :: 10 :: (bs ++ 13 :: 10 :: rest)) =
      (.ok (.bulkString bs), rest) := by
  have := decodeBulkString_digits bs.length (natDigits bs.length)
    (bs ++ 13 :: 10 :: rest) (natDigits_ne_nil _) (natDigits_all_digits _)
    (digitsVal_natDigits _) h (by simp)
  rw [this]
  have hd : (bs ++ 13 :: 10 :: rest).drop (bs.length + 2) = rest := by
    rw [show bs ++ 13 :: 10 :: rest = (bs ++ [13, 10]) ++ rest by simp]
    rw [show bs.length + 2 = (bs ++ [13, 10]).length by simp]
    exact List.drop_left _ _
  rw [List.take_left, hd]

mutual

theorem decode_encode_aux : ∀ (v : Value), Constructible v = true →
    ∀ fuel, neededFuel v ≤ fuel → ∀ rest,
      DecodeRESP fuel (Encode v ++ rest) = (.ok v, rest)
  | .simpleString bs, h, fuel, hfuel, rest => by
      have hno10 : ∀ c ∈ bs, c ≠ 10 := by
        simp only [Constructible, List.all_eq_true] at h
        intro c hc
        simpa using h c hc
      obtain ⟨f, rfl⟩ : ∃ f, fuel = f + 1 :=
        ⟨fuel - 1, by simp [neededFuel] at hfuel; omega⟩
      simp only [Encode, List.cons_append, List.append_assoc]
      simp [DecodeRESP]
      simp only [decodeSimpleString_crlf bs rest hno10]
  | .bulkString bs, h, fuel, hfuel, rest => by
      have hrange : bs.length ≤ maxInt64 := by
        simp only [Constructible, decide_eq_true_eq] at h
        exact h
      obtain ⟨f, rfl⟩ : ∃ f, fuel = f + 1 :=
        ⟨fuel - 1, by simp [neededFuel] at hfuel; omega⟩
      simp only [Encode, List.cons_append, List.append_assoc]
      simp [DecodeRESP]
      simp only [decodeBulkString_encode bs rest hrange]
  | .array vs, h, fuel, hfuel, rest => by
      have hlen : vs.length ≤ maxInt64 := by
        simp only [Constructible, Bool.and_eq_true, decide_eq_true_eq] at h
        exact h.1
      have hcl : ConstructibleList vs = true := by
        simp only [Constructible, Bool.and_eq_true, decide_eq_true_eq] at h
        exact h.2
      obtain ⟨f, rfl⟩ : ∃ f, fuel = f + 1 :=
        ⟨fuel - 1, by simp [neededFuel] at hfuel; omega⟩
      have hf : neededFuelList vs ≤ f := by
        simp [neededFuel] at hfuel
        omega
      simp only [Encode, List.cons_append, List.append_assoc]
      simp [DecodeRESP]
      simp only [readUntilCRLF_crlf _ _ (natDigits_no_lf _)]
      simp only [Atoi_natDigits _ hlen]
      simp only [show ((vs.length : Int)).toNat = vs.length by omega]
      simp only [decodeElems_encode_aux vs hcl f hf rest]

theorem decodeElems_encode_aux : ∀ (vs : List Value), ConstructibleList vs = true →
    ∀ fuel, neededFuelList vs ≤ fuel → ∀ rest,
      decodeElems fuel vs.length (EncodeList vs ++ rest) = (.ok vs, rest)
  | [], _, fuel, _, rest => by
      simp [EncodeList, decodeElems]
  | v :: vs, h, fuel, hfuel, rest => by
      have hv : Constructible v = true := by
        simp only [ConstructibleList, Bool.and_eq_true] at h
        exact h.1
      have hvs : ConstructibleList vs = true := by
        simp only [ConstructibleList, Bool.and_eq_true] at h
        exact h.2
      have hf1 : neededFuel v ≤ fuel := by
        simp [neededFuelList] at hfuel
        omega
      have hf2 : neededFuelList vs ≤ fuel := by
        simp [neededFuelList] at hfuel
        omega
      simp only [EncodeList, List.length_cons, decodeElems, List.append_assoc]
      simp only [decode_encode_aux v hv fuel hf1 (EncodeList vs ++ rest)]
      simp only [decodeElems_encode_aux vs hvs fuel hf2 rest]

end

theorem wrap64_eq_self (x : Int) (h1 : -(2 ^ 63) ≤ x) (h2 : x < 2 ^ 63) :
    wrap64 x = x := by
  unfold wrap64
  omega

/-! ## The claims -/

/-- C1 counterexample: an entry whose expiresAt (here 5) is exactly the
current time of the Get call is NOT treated as expired — IsExpired uses
the strict expiresAt.Before(now) — so Get returns the value with found =
true and does not delete the entry, refuting the claim's "at or before". -/
theorem get_at_expiry_instant_returns_value :
    ((Storage.SetWithExpiry NewStorage [107] [118] 2 3) [107]).map
        ValueWithExpiry.expiresAt = some 5 ∧
    ((Storage.SetWithExpiry NewStorage [107] [118] 2 3).Get [107] 5).1 =
      ([118], true) ∧
    ((Storage.SetWithExpiry NewStorage [107] [118] 2 3).Get [107] 5).2 [107] =
      some ⟨[118], 5⟩ := by
  refine ⟨by decide, by decide, by decide⟩

/-- C1 (amended): for every key, if Get is called when the table holds an
entry for the key whose expiresAt is present (nonzero) and is STRICTLY
before the current time of the call, then Get deletes that entry and
returns not-found; hence no read returns a value whose expiresAt is
strictly before the read's current time.  (At the exact expiry instant
the entry is still returned: expiresAt.Before(now) is strict.) -/
theorem get_expired_entry_deleted (s : Storage) (key : List Nat) (now : Int)
    (vwe : ValueWithExpiry) (hfind : s key = some vwe)
    (hpresent : vwe.expiresAt ≠ 0) (hbefore : vwe.expiresAt < now) :
    (s.Get key now).1 = ([], false) ∧ (s.Get key now).2 key = none := by
  have hexp : vwe.IsExpired now = true := by
    unfold ValueWithExpiry.IsExpired
    rw [if_neg hpresent]
    exact decide_eq_true hbefore
  unfold Storage.Get
  rw [hfind]
  simp [hexp]

/-- Witness for C1: a concrete expired entry (expiresAt 5, read at time 9)
is deleted and reported not-found. -/
theorem get_expired_entry_deleted_witness :
    (Storage.SetWithExpiry NewStorage [107] [118] 0 5) [107] = some ⟨[118], 5⟩ ∧
    (ValueWithExpiry.mk [118] 5).expiresAt ≠ 0 ∧
    (ValueWithExpiry.mk [118] 5).expiresAt < 9 ∧
    (((Storage.SetWithExpiry NewStorage [107] [118] 0 5).Get [107] 9).1 =
        ([], false) ∧
      ((Storage.SetWithExpiry NewStorage [107] [118] 0 5).Get [107] 9).2 [107] =
        none) :=
  ⟨by decide, by decide, by decide,
    get_expired_entry_deleted _ [107] 9 ⟨[118], 5⟩ (by decide) (by decide)
      (by decide)⟩

/-- C2 counterexample: the Value SimpleString "a\nb" (bytes [97, 10, 98],
constructible as a Go struct) does not round-trip: its encoding is
"+a\nb\r\n", and decoding that reads only up to the first LF, yielding
SimpleString "" (ReadBytes returns "a\n", and bytes[:len-2] drops two
bytes), a different value. -/
theorem roundtrip_lf_counterexample :
    (DecodeRESP 1 (Encode (.simpleString [97, 10, 98]) ++ [])).1 =
      .ok (.simpleString []) ∧
    Value.simpleString [] ≠ Value.simpleString [97, 10, 98] := by
  constructor
  · simp [Encode, DecodeRESP]
    rfl
  · simp

/-- C2 (amended): for every constructible protocol Value — every byte
slice's length within Go's 64-bit int range (automatic for Go slices) and
every SimpleString content free of LF bytes, which is exactly what the
decoder itself can produce — encoding and then decoding yields the value
back, leaving the rest of the stream untouched.  The fuel only bounds
array-nesting depth: any fuel of at least neededFuel v (nesting depth + 1)
computes what the unbounded Go recursion computes. -/
theorem decode_encode_roundtrip (v : Value) (h : Constructible v = true)
    (fuel : Nat) (hfuel : neededFuel v ≤ fuel) (rest : List Nat) :
    DecodeRESP fuel (Encode v ++ rest) = (.ok v, rest) :=
  decode_encode_aux v h fuel hfuel rest

/-- Witness for C2: the array ["ECHO", "hey"] of bulk strings round-trips
with fuel 2. -/
theorem decode_encode_roundtrip_witness :
    Constructible (.array [.bulkString [69, 67, 72, 79], .bulkString [104, 101, 121]]) = true ∧
    neededFuel (.array [.bulkString [69, 67, 72, 79], .bulkString [104, 101, 121]]) ≤ 2 ∧
    DecodeRESP 2
        (Encode (.array [.bulkString [69, 67, 72, 79], .bulkString [104, 101, 121]]) ++ [43]) =
      (.ok (.array [.bulkString [69, 67, 72, 79], .bulkString [104, 101, 121]]), [43]) :=
  ⟨by simp [Constructible, ConstructibleList, maxInt64],
    by simp [neededFuel, neededFuelList],
    decode_encode_roundtrip _
      (by simp [Constructible, ConstructibleList, maxInt64]) 2
      (by simp [neededFuel, neededFuelList]) [43]⟩

/-- C3 counterexample: for n = 2^63 (digit string "9223372036854775808")
the stream ends long before n+2 further bytes are available, yet decoding
fails with strconv's out-of-range parse error, not with a truncation
error: Atoi rejects the length line before any payload is read. -/
theorem bulk_overflow_length_counterexample :
    DecodeRESP 1 (36 :: (bytesOfString "9223372036854775808" ++ 13 :: 10 :: [65, 66])) =
      (.error .parseError, [65, 66]) ∧
    DecodeErr.parseError ≠ DecodeErr.truncated := by
  constructor
  · simp [DecodeRESP, bytesOfString]
    rfl
  · decide

/-- C3 (amended): for every n representable in Go's 64-bit int
(n ≤ 9223372036854775807) and every stream consisting of the tag, a
decimal digit-string for n, CRLF, and a tail of at least n+2 bytes,
decoding returns exactly the first n tail bytes (the following CRLF is
read and discarded); a tail shorter than n+2 bytes fails with a
truncation error; a length line that is not Atoi-parseable (including a
digit string beyond the int64 range) fails with a parse error. -/
theorem bulk_string_exactness (n : Nat) (ds tail : List Nat) (fuel : Nat)
    (hfuel : 0 < fuel) (hne : ds ≠ []) (hdig : ∀ c ∈ ds, 48 ≤ c ∧ c ≤ 57)
    (hval : digitsVal ds = n) (hrange : n ≤ maxInt64) :
    (n + 2 ≤ tail.length →
      DecodeRESP fuel (36 :: (ds ++ 13 :: 10 :: tail)) =
        (.ok (.bulkString (tail.take n)), tail.drop (n + 2))) ∧
    (tail.length < n + 2 →
      DecodeRESP fuel (36 :: (ds ++ 13 :: 10 :: tail)) = (.error .truncated, [])) ∧
    (∀ cs, (∀ c ∈ cs, c ≠ 10) → Atoi cs = .error .parseError →
      DecodeRESP fuel (36 :: (cs ++ 13 :: 10 :: tail)) = (.error .parseError, tail)) := by
  obtain ⟨f, rfl⟩ : ∃ f, fuel = f + 1 := ⟨fuel - 1, by omega⟩
  refine ⟨fun hlen => ?_, fun hlen => ?_, fun cs hno10 herr => ?_⟩
  · simp only [DecodeRESP, if_true]
    rw [if_neg (by decide)]
    exact decodeBulkString_digits n ds tail hne hdig hval hrange hlen
  · simp only [DecodeRESP, if_true]
    rw [if_neg (by decide)]
    exact decodeBulkString_digits_trunc n ds tail hne hdig hval hrange hlen
  · simp only [DecodeRESP, if_true]
    rw [if_neg (by decide)]
    exact decodeBulkString_parse_error cs tail hno10 herr

/-- Witness for C3: "$3\r\nabcXY" decodes to the 3 bytes "abc" leaving
nothing unread after the discarded CRLF position; "$5\r\nab" is a
truncation error; "$-\r\nab" is a parse error. -/
theorem bulk_string_exactness_witness :
    DecodeRESP 1 (36 :: ([51] ++ 13 :: 10 :: [97, 98, 99, 88, 89])) =
      (.ok (.bulkString [97, 98, 99]), []) ∧
    DecodeRESP 1 (36 :: ([53] ++ 13 :: 10 :: [97, 98])) = (.error .truncated, []) ∧
    DecodeRESP 1 (36 :: ([45] ++ 13 :: 10 :: [97, 98])) = (.error .parseError, [97, 98]) := by
  refine ⟨?_, ?_, ?_⟩
  · have h := (bulk_string_exactness 3 [51] [97, 98, 99, 88, 89] 1 (by decide)
      (by decide) (by decide) (by decide) (by decide)).1 (by decide)
    simpa using h
  · exact (bulk_string_exactness 5 [53] [97, 98] 1 (by decide) (by decide)
      (by decide) (by decide) (by decide)).2.1 (by decide)
  · exact (bulk_string_exactness 0 [48] [97, 98] 1 (by decide) (by decide)
      (by decide) (by decide) (by decide)).2.2 [45] (by decide) (by rfl)

/-- C4: after SetWithExpiry(k, v, ttl) followed by a plain Set(k, w), the
entry for k has the zero expiry time, so Get(k) at ANY later time returns
(w, found = true) and leaves the table unchanged: plain Set
unconditionally replaces any prior entry and its TTL. -/
theorem set_after_setWithExpiry_clears_ttl (s : Storage) (key v w : List Nat)
    (now0 : Int) (ttl : Int) (now1 : Int) :
    ((s.SetWithExpiry key v now0 ttl).Set key w).Get key now1 =
      ((w, true), (s.SetWithExpiry key v now0 ttl).Set key w) := by
  unfold Storage.Get Storage.Set Storage.SetWithExpiry ValueWithExpiry.IsExpired
  simp

/-- C5 counterexample: decoding the exact input "$-1\r\n" (bytes
[36, 45, 49, 13, 10]) does not succeed with a null value — it fails with
a truncation error, because the decoder parses the length -1 and then
tries to read -1+2 = 1 byte from the exhausted stream. -/
theorem null_bulk_string_not_null :
    DecodeRESP 1 [36, 45, 49, 13, 10] = (.error .truncated, []) := by
  simp [DecodeRESP]
  rfl

/-- C5 (amended): the code has no null bulk string value.  On the exact
input "$-1\r\n" decoding fails with a truncation error (io.ReadFull of
the count+2 = 1 byte buffer hits EOF); when at least one further byte is
available, that byte is consumed and the slice bytes[:-1] panics.  In
neither case is any Value produced, so nothing null round-trips. -/
theorem null_bulk_string_decode (b : Nat) (rest : List Nat) :
    DecodeRESP 1 ([36, 45, 49, 13, 10] ++ []) = (.error .truncated, []) ∧
    DecodeRESP 1 ([36, 45, 49, 13, 10] ++ b :: rest) = (.error .panics, rest) := by
  constructor
  · simp [DecodeRESP]
    rfl
  · have h1 : readUntilCRLF (45 :: 49 :: 13 :: 10 :: b :: rest) =
      (.ok [45, 49], b :: rest) := rfl
    have h2 : Atoi [45, 49] = .ok (-1) := rfl
    simp [DecodeRESP, decodeBulkString, h1, h2, readFull]

/-- C6: for every input stream whose first byte is none of the three tags
(43, 36, 42 — the bytes of +, $ and *), DecodeRESP consumes exactly that
one byte, fails with the invalid-type-byte error, and leaves the rest of
the stream unread. -/
theorem decode_invalid_type_byte (b : Nat) (rest : List Nat) (fuel : Nat)
    (h43 : b ≠ 43) (h36 : b ≠ 36) (h42 : b ≠ 42) (hfuel : 0 < fuel) :
    DecodeRESP fuel (b :: rest) = (.error (.invalidType b), rest) := by
  obtain ⟨f, rfl⟩ : ∃ f, fuel = f + 1 := ⟨fuel - 1, by omega⟩
  simp [DecodeRESP, h43, h36, h42]

/-- Witness for C6: the byte 45 (the tag of the unimplemented Error type)
is rejected after being consumed, the following bytes left unread. -/
theorem decode_invalid_type_byte_witness :
    (45 : Nat) ≠ 43 ∧ (45 : Nat) ≠ 36 ∧ (45 : Nat) ≠ 42 ∧ (0 : Nat) < 1 ∧
    DecodeRESP 1 [45, 69, 82, 82] = (.error (.invalidType 45), [69, 82, 82]) :=
  ⟨by decide, by decide, by decide, by decide,
    decode_invalid_type_byte 45 [69, 82, 82] 1 (by decide) (by decide)
      (by decide) (by decide)⟩

/-- C7 counterexample: the option token is compared against the lowercase
literal "px", so the request [set, k, v, PX, 100] with the uppercase
token "PX" and numeric millis is rejected with an Error reply and the
store is left unchanged — no TTL is recorded, refuting the claim for the
spec's spelled option token PX. -/
theorem set_px_uppercase_rejected :
    handleRequest (.array [.bulkString (bytesOfString "set"), .bulkString [107],
        .bulkString [118], .bulkString (bytesOfString "PX"), .bulkString [49, 48, 48]])
      NewStorage 0 =
      some (bytesOfString "-ERR invalid option for set: " ++ [49, 48, 48] ++ [13, 10],
        NewStorage) := rfl

/-- C7 (amended): for a five-element request [set, key, value, opt, millis]
(lowercase command, as the dispatcher matches exactly): if opt is the
lowercase token px and millis parses via Atoi as m, the store records the
key with expiresAt = now plus the wrapping int64 product
time.Duration(m) * time.Millisecond — which is exactly a TTL of m
milliseconds (m * 10^6 ns) whenever that product stays inside the int64
range, while outside it the duration wraps as Go's multiplication does
(m = 2^63 - 1 wraps to -1 ms) — and the reply is "+OK\r\n"; if opt is
px and millis does not parse, an Error reply is written and the store is
not modified; if opt is any token other than lowercase px (including the
uppercase PX), an Error reply is written and the store is not
modified. -/
theorem set_px_option_dispatch (key v ms opt : List Nat) (s : Storage) (now : Int) :
    (∀ m : Int, Atoi ms = .ok m →
      handleRequest (.array [.bulkString (bytesOfString "set"), .bulkString key,
          .bulkString v, .bulkString (bytesOfString "px"), .bulkString ms]) s now =
        some (bytesOfString "+OK\r\n",
          s.SetWithExpiry key v now (wrap64 (m * 1000000)))) ∧
    (∀ m : Int, Atoi ms = .ok m →
      -(2 ^ 63) ≤ m * 1000000 → m * 1000000 < 2 ^ 63 →
      handleRequest (.array [.bulkString (bytesOfString "set"), .bulkString key,
          .bulkString v, .bulkString (bytesOfString "px"), .bulkString ms]) s now =
        some (bytesOfString "+OK\r\n", s.SetWithExpiry key v now (m * 1000000))) ∧
    (Atoi ms = .error .parseError →
      handleRequest (.array [.bulkString (bytesOfString "set"), .bulkString key,
          .bulkString v, .bulkString (bytesOfString "px"), .bulkString ms]) s now =
        some (bytesOfString "-ERR invalid PX value: " ++ ms ++ [13, 10], s)) ∧
    (opt ≠ bytesOfString "px" →
      handleRequest (.array [.bulkString (bytesOfString "set"), .bulkString key,
          .bulkString v, .bulkString opt, .bulkString ms]) s now =
        some (bytesOfString "-ERR invalid option for set: " ++ ms ++ [13, 10], s)) := by
  refine ⟨fun m hm => ?_, fun m hm hlo hhi => ?_, fun hm => ?_, fun hopt => ?_⟩
  · simp [handleRequest, Value.arr, Value.str, bytesOfString, hm]
  · rw [← wrap64_eq_self (m * 1000000) hlo hhi]
    simp [handleRequest, Value.arr, Value.str, bytesOfString, hm]
  · simp [handleRequest, Value.arr, Value.str, bytesOfString, hm]
  · simp only [handleRequest, Value.arr, Value.str]
    rw [if_pos trivial, if_neg hopt]
    simp [bytesOfString]

/-- Witness for C7: millis "100" (whose product with 10^6 is far inside
the int64 range) stores with a TTL of exactly 100 ms and replies +OK;
millis "10x" is rejected; option "ex" is rejected. -/
theorem set_px_option_dispatch_witness :
    Atoi [49, 48, 48] = .ok 100 ∧
    -(2 ^ 63) ≤ (100 : Int) * 1000000 ∧ (100 : Int) * 1000000 < 2 ^ 63 ∧
    handleRequest (.array [.bulkString (bytesOfString "set"), .bulkString [107],
        .bulkString [118], .bulkString (bytesOfString "px"), .bulkString [49, 48, 48]])
      NewStorage 5 =
      some (bytesOfString "+OK\r\n",
        NewStorage.SetWithExpiry [107] [118] 5 (100 * 1000000)) ∧
    handleRequest (.array [.bulkString (bytesOfString "set"), .bulkString [107],
        .bulkString [118], .bulkString (bytesOfString "px"), .bulkString [49, 48, 120]])
      NewStorage 5 =
      some (bytesOfString "-ERR invalid PX value: " ++ [49, 48, 120] ++ [13, 10],
        NewStorage) ∧
    handleRequest (.array [.bulkString (bytesOfString "set"), .bulkString [107],
        .bulkString [118], .bulkString [101, 120], .bulkString [49, 48, 48]])
      NewStorage 5 =
      some (bytesOfString "-ERR invalid option for set: " ++ [49, 48, 48] ++ [13, 10],
        NewStorage) :=
  ⟨rfl, by decide, by decide,
    (set_px_option_dispatch [107] [118] [49, 48, 48] [] NewStorage 5).2.1 100 rfl
      (by decide) (by decide),
    (set_px_option_dispatch [107] [118] [49, 48, 120] [] NewStorage 5).2.2.1 rfl,
    (set_px_option_dispatch [107] [118] [49, 48, 48] [101, 120] NewStorage 5).2.2.2
      (by decide)⟩

/-- C8 counterexample: the command name is not lowercased before the
switch, so the uppercase request [PING] is answered with the
unknown-command Error reply, not with +PONG. -/
theorem uppercase_ping_not_pong :
    handleRequest (.array [.bulkString (bytesOfString "PING")]) NewStorage 0 =
      some (bytesOfString "-ERR unknown command " ++ [39] ++ bytesOfString "PING"
        ++ [39, 13, 10], NewStorage) ∧
    (handleRequest (.array [.bulkString (bytesOfString "PING")]) NewStorage 0).map
        Prod.fst ≠ some (bytesOfString "+PONG\r\n") := by
  exact ⟨rfl, by decide⟩

/-- C8 (amended): the command name in element 0 is matched
case-sensitively against the lowercase literals: [ping] replies
"+PONG\r\n", [echo, msg] replies with the Bulk String echo of msg, and
every other name — including the uppercase PING or FOO — is answered with
exactly "-ERR unknown command '<name>'\r\n". -/
theorem command_dispatch_case_sensitive (s : Storage) (now : Int)
    (msg cmd : List Nat) :
    handleRequest (.array [.bulkString (bytesOfString "ping")]) s now =
      some (bytesOfString "+PONG\r\n", s) ∧
    handleRequest (.array [.bulkString (bytesOfString "echo"), .bulkString msg]) s now =
      some (bulkReply msg, s) ∧
    handleRequest (.array [.bulkString (bytesOfString "FOO")]) s now =
      some (bytesOfString "-ERR unknown command " ++ [39] ++ bytesOfString "FOO"
        ++ [39, 13, 10], s) ∧
    (cmd ≠ bytesOfString "ping" → cmd ≠ bytesOfString "echo" →
     cmd ≠ bytesOfString "set" → cmd ≠ bytesOfString "get" →
      handleRequest (.array [.bulkString cmd]) s now =
        some (bytesOfString "-ERR unknown command " ++ [39] ++ cmd
          ++ [39, 13, 10], s)) := by
  refine ⟨rfl, rfl, rfl, fun h1 h2 h3 h4 => ?_⟩
  simp only [handleRequest, Value.arr, Value.str]
  rw [if_neg h1, if_neg h2, if_neg h3, if_neg h4]

/-- Witness for C8: the unknown lowercase name "foo" gets the
unknown-command reply. -/
theorem command_dispatch_case_sensitive_witness :
    handleRequest (.array [.bulkString [102, 111, 111]]) NewStorage 0 =
      some (bytesOfString "-ERR unknown command " ++ [39] ++ [102, 111, 111]
        ++ [39, 13, 10], NewStorage) :=
  (command_dispatch_case_sensitive NewStorage 0 [] [102, 111, 111]).2.2.2
    (by decide) (by decide) (by decide) (by decide)

/-- C10: dispatch is total only on decoded Arrays with enough elements:
a decoded SimpleString or BulkString (whose Array() accessor is the empty
slice) and the decoded empty Array (input "*0\r\n") panic indexing
element 0; echo with no argument, set with fewer than two arguments, set
with exactly three arguments (whatever the third token — in particular a
non-px one), and get with no argument panic indexing past the end of the
argument slice. -/
theorem dispatch_partiality (bs k v opt : List Nat) (s : Storage) (now : Int) :
    handleRequest (.simpleString bs) s now = none ∧
    handleRequest (.bulkString bs) s now = none ∧
    handleRequest (.array []) s now = none ∧
    DecodeRESP 1 [42, 48, 13, 10] = (.ok (.array []), []) ∧
    handleRequest (.array [.bulkString (bytesOfString "echo")]) s now = none ∧
    handleRequest (.array [.bulkString (bytesOfString "set")]) s now = none ∧
    handleRequest (.array [.bulkString (bytesOfString "set"), .bulkString k]) s now = none ∧
    handleRequest (.array [.bulkString (bytesOfString "set"), .bulkString k,
        .bulkString v, .bulkString opt]) s now = none ∧
    handleRequest (.array [.bulkString (bytesOfString "get")]) s now = none := by
  refine ⟨rfl, rfl, rfl, ?_, rfl, rfl, rfl, ?_, rfl⟩
  · have h1 : readUntilCRLF [48, 13, 10] = (.ok [48], []) := rfl
    have h2 : Atoi [48] = .ok 0 := rfl
    simp [DecodeRESP, decodeElems, h1, h2]
  · simp [handleRequest, Value.arr, Value.str, bytesOfString]

end Rodis
